import Mathlib

/-!
Verification development for the `go-elastic` library: the time-partitioned
index catalog (`aliases` package: `Indexes.Matching`, `Indexes.MatchingOlderThan`,
`Indexes.RemoveOlderThan`), the client-side retirement operations
(`Client.RemoveOldAliases`, `Client.RemoveOldIndexes`, `Client.Request`),
credential selection, and the buffered batch writer.

Go values of type `time.Time` produced by `time.Parse` of a date layout are
UTC instants; we model them as an integer count of seconds since the Unix
epoch.  `time.Parse` itself is modelled on Go's `format.go` restricted to
the numeric layout chunks (`2006`, `06`, `15`, `1`, `01`, `2`, `02`, `3`,
`03`, `4`, `04`, `5`, `05`) together with literal characters; the textual
chunks (month and weekday names, `PM`, time zones, fractional seconds) are
outside the fragment exercised by this library.
-/

namespace Elastic

/-- Go `time.Time` restricted to UTC, as seconds since the Unix epoch. -/
abbrev GoTime := Int

/-- Model of Go `Time.AddDate(0, 0, d)` for a UTC instant: shifting a civil
date by `d` days moves the instant by exactly `d * 86400` seconds. -/
def GoTime.addDate00 (t : GoTime) (d : Int) : GoTime := t + d * 86400

/-- Leap-year test, as in Go `time.isLeap`. -/
def isLeap (year : Int) : Bool :=
  year % 4 == 0 && (year % 100 != 0 || year % 400 == 0)

/-- Number of days in a month, as in Go `time.daysIn`. -/
def daysIn (month year : Int) : Int :=
  if month == 2 then (if isLeap year then 29 else 28)
  else if month == 4 || month == 6 || month == 9 || month == 11 then 30
  else 31

/-- Days from the civil date `(year, month, day)` to 1970-01-01 (negative when
the date is earlier).  Standard era-based conversion; the 400-year shift keeps
every intermediate quantity nonnegative for `year ≥ 0`, where truncating and
flooring division agree. -/
def daysFromCivil (year month day : Int) : Int :=
  let y := (if month ≤ 2 then year - 1 else year) + 400
  let era := y / 400
  let yoe := y - era * 400
  let mp := (month + 9) % 12
  let doy := (153 * mp + 2) / 5 + day - 1
  let doe := yoe * 365 + yoe / 4 - yoe / 100 + doy
  era * 146097 + doe - 146097 - 719468

/-- UTC instant of the civil time `(year, month, day, hour, minute, second)`,
as seconds since the Unix epoch (Go `time.Date` in UTC). -/
def mkTime (year month day hour minute second : Int) : GoTime :=
  daysFromCivil year month day * 86400 + hour * 3600 + minute * 60 + second

/-- Decimal digit test on characters. -/
def isDigitChar (c : Char) : Bool := '0' ≤ c && c ≤ '9'

/-- Numeric value of a decimal digit character. -/
def digitVal (c : Char) : Int := (c.toNat : Int) - ('0'.toNat : Int)

/-- Model of Go `time.getnum`: reads a one- or two-digit number from the
front of `v`.  With `fixed` set, exactly two digits are required; otherwise
two digits are taken when available, else one. -/
def getnum (fixed : Bool) : List Char → Option (Int × List Char)
  | c0 :: c1 :: v =>
    if isDigitChar c0 then
      if isDigitChar c1 then some (10 * digitVal c0 + digitVal c1, v)
      else if fixed then none
      else some (digitVal c0, c1 :: v)
    else none
  | [c0] =>
    if isDigitChar c0 && !fixed then some (digitVal c0, []) else none
  | [] => none

/-- Model of Go `time.atoi` on a two-character slice, as used by the
two-digit year chunk: an optional sign followed by digits. -/
def atoi2 (c0 c1 : Char) : Option Int :=
  if isDigitChar c0 && isDigitChar c1 then some (10 * digitVal c0 + digitVal c1)
  else if c0 == '-' && isDigitChar c1 then some (-(digitVal c1))
  else if c0 == '+' && isDigitChar c1 then some (digitVal c1)
  else none

/-- Accumulated calendar fields during a parse, with Go's defaults: year 0,
January 1, midnight. -/
structure ParseAcc where
  year : Int
  month : Int
  day : Int
  hour : Int
  minute : Int
  second : Int
deriving DecidableEq, Repr

/-- Main loop of the `time.Parse` model: the first list is the remaining
layout, the second the remaining value.  Layout positions are classified as
in Go `nextStdChunk` (numeric fragment): `2006`, `06`, `15`, `1`, `01`, `2`,
`02`, `3`, `03`, `4`, `04`, `5`, `05` are reference chunks, every other
character is a literal that the value must reproduce exactly. -/
def parseRun : List Char → List Char → ParseAcc → Option ParseAcc
  | [], v, st => if v.isEmpty then some st else none
  | '2' :: '0' :: '0' :: '6' :: L, v, st =>
    match v with
    | c0 :: c1 :: c2 :: c3 :: v' =>
      if isDigitChar c0 && isDigitChar c1 && isDigitChar c2 && isDigitChar c3 then
        parseRun L v' { st with
          year := 1000 * digitVal c0 + 100 * digitVal c1 + 10 * digitVal c2 + digitVal c3 }
      else none
    | _ => none
  | '1' :: '5' :: L, v, st =>
    match getnum false v with
    | some (n, v') => if n < 0 || 24 ≤ n then none else parseRun L v' { st with hour := n }
    | none => none
  | '1' :: L, v, st =>
    match getnum false v with
    | some (n, v') => if n ≤ 0 || 12 < n then none else parseRun L v' { st with month := n }
    | none => none
  | '2' :: L, v, st =>
    match getnum false v with
    | some (n, v') => parseRun L v' { st with day := n }
    | none => none
  | '0' :: '1' :: L, v, st =>
    match getnum true v with
    | some (n, v') => if n ≤ 0 || 12 < n then none else parseRun L v' { st with month := n }
    | none => none
  | '0' :: '2' :: L, v, st =>
    match getnum true v with
    | some (n, v') => parseRun L v' { st with day := n }
    | none => none
  | '0' :: '3' :: L, v, st =>
    match getnum true v with
    | some (n, v') => if n < 0 || 12 < n then none else parseRun L v' { st with hour := n }
    | none => none
  | '0' :: '4' :: L, v, st =>
    match getnum true v with
    | some (n, v') => if n < 0 || 60 ≤ n then none else parseRun L v' { st with minute := n }
    | none => none
  | '0' :: '5' :: L, v, st =>
    match getnum true v with
    | some (n, v') => if n < 0 || 60 ≤ n then none else parseRun L v' { st with second := n }
    | none => none
  | '0' :: '6' :: L, v, st =>
    match v with
    | c0 :: c1 :: v' =>
      match atoi2 c0 c1 with
      | some y =>
        parseRun L v' { st with year := if 69 ≤ y then y + 1900 else y + 2000 }
      | none => none
    | _ => none
  | '3' :: L, v, st =>
    match getnum false v with
    | some (n, v') => if n < 0 || 12 < n then none else parseRun L v' { st with hour := n }
    | none => none
  | '4' :: L, v, st =>
    match getnum false v with
    | some (n, v') => if n < 0 || 60 ≤ n then none else parseRun L v' { st with minute := n }
    | none => none
  | '5' :: L, v, st =>
    match getnum false v with
    | some (n, v') => if n < 0 || 60 ≤ n then none else parseRun L v' { st with second := n }
    | none => none
  | c :: L, v, st =>
    match v with
    | c' :: v' => if c == c' then parseRun L v' st else none
    | [] => none

/-- Final validation and conversion of parsed fields, as at the end of Go
`time.Parse`: the day of the month is checked against the month's length,
then the fields are assembled into a UTC instant via `time.Date`. -/
def finalize (st : ParseAcc) : Option GoTime :=
  if st.day < 1 || daysIn st.month st.year < st.day then none
  else some (mkTime st.year st.month st.day st.hour st.minute st.second)

/-- Model of Go `time.Parse layout value` on the numeric layout fragment,
returning the parsed UTC instant, or `none` on any parse error. -/
def goTimeParse (layout value : String) : Option GoTime :=
  (parseRun layout.toList value.toList ⟨0, 1, 1, 0, 0, 0⟩).bind finalize

/-- An index aliases entry (`aliases.Index`): the alias names attached to the
index.  The Go field is `Aliases map[string]interface{}`; only the keys carry
information, so we keep the list of alias names. -/
structure Index where
  Aliases : List String
deriving DecidableEq, Repr

/-- The alias catalog (`aliases.Indexes`, Go `map[string]Index`): an
association list from index name to entry.  Go map iteration order is
unspecified; the list order stands in for one such order. -/
abbrev Indexes := List (String × Index)

/-- Go `Indexes.Names`: the index names of the catalog. -/
def Indexes.Names (i : Indexes) : List String := i.map Prod.fst

/-- Go `Indexes.Matching`: the sub-catalog of entries whose name parses
under the time `layout`. -/
def Indexes.Matching (i : Indexes) (layout : String) : Indexes :=
  i.filter fun kv => (goTimeParse layout kv.1).isSome

/-- Go `Indexes.MatchingOlderThan`: the sub-catalog of entries whose name
parses under `layout` to an instant strictly before `now.AddDate(0,0,-n)`. -/
def Indexes.MatchingOlderThan (i : Indexes) (layout : String) (n : Int) (now : GoTime) :
    Indexes :=
  let old := GoTime.addDate00 now (-n)
  i.filter fun kv =>
    match goTimeParse layout kv.1 with
    | some t => decide (t < old)
    | none => false

/-- One alias-removal action (`aliases.Action`): in Go a struct holding a
`Remove` record with fields `Index` and `Alias`; flattened here, with the
`remove` wrapper restored by serialization. -/
structure Action where
  Index : String
  Alias : String
deriving DecidableEq, Repr

/-- Model of Go `encoding/json` string encoding: quotes, with `"`, `\`,
newline, carriage return, tab, the HTML-sensitive characters and the
remaining control characters escaped. -/
def jsonString (s : String) : String :=
  "\"" ++ String.join (s.toList.map fun c =>
    if c == '"' then "\\\""
    else if c == '\\' then "\\\\"
    else if c == '\n' then "\\n"
    else if c == '\r' then "\\r"
    else if c == '\t' then "\\t"
    else if c == '<' then "\\u003c"
    else if c == '>' then "\\u003e"
    else if c == '&' then "\\u0026"
    else if c.toNat < 32 then
      "\\u00" ++ String.mk [(Nat.digitChar (c.toNat / 16)), (Nat.digitChar (c.toNat % 16))]
    else String.mk [c]) ++ "\""

/-- Serialization of one `Action`, as Go `json.Marshal` renders the struct:
a `remove` object with `index` and `alias` fields, in declaration order. -/
def marshalAction (a : Action) : String :=
  "\x7b\"remove\":\x7b\"index\":" ++ jsonString a.Index ++
    ",\"alias\":" ++ jsonString a.Alias ++ "\x7d\x7d"

/-- Serialization of an `Actions` value (`aliases.Actions`), as rendered by
Go `json.Marshal`: an object with a single `actions` array. -/
def marshalActions (l : List Action) : String :=
  "\x7b\"actions\":[" ++ String.intercalate "," (l.map marshalAction) ++ "]\x7d"

/-- Go `Indexes.RemoveOlderThan`: one removal action per index selected by
`MatchingOlderThan`; `none` models the `nil` byte slice returned when no
action was produced, otherwise the marshalled `actions` document. -/
def Indexes.RemoveOlderThan (i : Indexes) (layout aliasName : String) (n : Int)
    (now : GoTime) : Option String :=
  let actions := (Indexes.MatchingOlderThan i layout n now).map fun kv =>
    Action.mk kv.1 aliasName
  if actions.isEmpty then none else some (marshalActions actions)

/-- An HTTP request issued by the client, as seen by the transport. -/
structure Request where
  method : String
  path : String
  body : Option String
deriving DecidableEq, Repr

/-- Go `Client.RemoveOldAliases`, with the transport abstracted: `fetched`
is the outcome of the initial `Aliases()` call, and the result records the
alias-mutation POST issued, if any (`.ok none` = success with no call). -/
def Client.RemoveOldAliases (fetched : Except String Indexes)
    (layout aliasName : String) (n : Int) (now : GoTime) :
    Except String (Option Request) :=
  match fetched with
  | .error e => .error e
  | .ok indexes =>
    match Indexes.RemoveOlderThan indexes layout aliasName n now with
    | none => .ok none
    | some body => .ok (some ⟨"POST", "/_aliases", some body⟩)

/-- Go `Client.RemoveOldIndexes`, with the transport abstracted: `fetched`
is the outcome of the initial `Aliases()` call, and the result records the
DELETE issued, if any.  `DeleteIndex(name)` issues `DELETE /<name>`. -/
def Client.RemoveOldIndexes (fetched : Except String Indexes)
    (layout : String) (n : Int) (now : GoTime) : Except String (Option Request) :=
  match fetched with
  | .error e => .error e
  | .ok indexes =>
    if indexes.isEmpty then .ok none
    else
      let names := Indexes.Names (Indexes.MatchingOlderThan indexes layout n now)
      if names.isEmpty then .ok none
      else .ok (some ⟨"DELETE", "/" ++ String.intercalate "," names, none⟩)

/-- Outcome of the response-processing stage of `Client.Request`. -/
inductive RequestOutcome
  | failure (msg : String)
  | decoded (body : String)
  | success
deriving DecidableEq, Repr

/-- Response-processing stage of Go `Client.Request`: `status` is the Go
`res.Status` line, `body` the bytes read from the response.  A status code
of 300 or more fails with the status line and raw body; otherwise the body
is decoded into the target when one was supplied (`hasTarget`), and the call
succeeds outright when none was. -/
def Client.handleResponse (statusCode : Nat) (status body : String)
    (hasTarget : Bool) : RequestOutcome :=
  if 300 ≤ statusCode then .failure (status ++ ": " ++ body)
  else if hasTarget then .decoded body
  else .success

/-- AWS credentials (`elastic.AWSCredentials`); only presence matters here. -/
structure AWSCredentials where
  AccessKeyID : String
  SecretAccessKey : String
deriving DecidableEq, Repr

/-- Username/password credentials (`elastic.authCredentials`). -/
structure AuthCredentials where
  username : String
  password : String
deriving DecidableEq, Repr

/-- The credential state of `elastic.Client`: the two optional credential
fields, each a nullable pointer in Go. -/
structure Client where
  URL : String
  awsCredentials : Option AWSCredentials
  authCredentials : Option AuthCredentials
deriving DecidableEq, Repr

/-- Go `elastic.New`: a fresh client has neither credential set. -/
def Client.New (url : String) : Client := ⟨url, none, none⟩

/-- Go `Client.SetAWSCredentials`: stores the AWS credentials and clears the
basic-auth credentials. -/
def Client.SetAWSCredentials (c : Client) (credentials : AWSCredentials) : Client :=
  { c with awsCredentials := some credentials, authCredentials := none }

/-- Go `Client.SetAuthCredentials`: stores the basic-auth credentials and
clears the AWS credentials. -/
def Client.SetAuthCredentials (c : Client) (username password : String) : Client :=
  { c with authCredentials := some ⟨username, password⟩, awsCredentials := none }

/-- The authentication scheme a request built by `Client.Request` applies. -/
inductive AuthScheme
  | basic (username password : String)
  | awsSigned
  | noAuth
deriving DecidableEq, Repr

/-- Authentication dispatch of Go `Client.Request`: basic auth when the
auth credentials are set, AWS SigV4 signing when the AWS credentials are set,
in that order of priority, and no authentication otherwise. -/
def Client.authScheme (c : Client) : AuthScheme :=
  match c.authCredentials with
  | some a => .basic a.username a.password
  | none =>
    match c.awsCredentials with
    | some _ => .awsSigned
    | none => .noAuth

/-- A credential-setter call on the client. -/
inductive CredOp
  | setAWS (credentials : AWSCredentials)
  | setAuth (username password : String)
deriving DecidableEq, Repr

/-- Applies a sequence of credential-setter calls to a client. -/
def applyCredOps (c : Client) : List CredOp → Client
  | [] => c
  | .setAWS cr :: rest => applyCredOps (Client.SetAWSCredentials c cr) rest
  | .setAuth u p :: rest => applyCredOps (Client.SetAuthCredentials c u p) rest

/-- Modelled from the spec: the `batch` package implementation (`Batch` with
`Add`, `Size`, `Flush`) is not among the sources, only its tests are.  Per
§4.2 of the design, a `Batch` holds the target index name, the target type
name, and the ordered pending records; records are kept here as their
serialized bodies. -/
structure Batch where
  Index : String
  DocType : String
  pending : List String
deriving DecidableEq, Repr

/-- Modelled from the spec: `BulkEncoder.encode` emits, per record, an
action-metadata line followed by the serialized body line, each
newline-terminated, so the stream ends with a trailing newline. -/
def bulkEncode (index docType : String) (records : List String) : String :=
  String.join (records.map fun r =>
    "\x7b\"index\":\x7b\"_index\":" ++ jsonString index ++
      ",\"_type\":" ++ jsonString docType ++ "\x7d\x7d\n" ++ r ++ "\n")

/-- Modelled from the spec: `size()` is the pending-record count. -/
def Batch.Size (b : Batch) : Nat := b.pending.length

/-- Modelled from the spec: `add(record)` appends to the pending batch and
performs no I/O. -/
def Batch.Add (b : Batch) (r : String) : Batch :=
  { b with pending := b.pending ++ [r] }

/-- Modelled from the spec: `flush()` is a no-op success on an empty batch;
otherwise it encodes the pending records, issues one transport call, clears
the batch on success, and on failure surfaces the error with the batch left
unchanged.  The transport collaborator is passed in as a function from the
request body to its outcome. -/
def Batch.Flush (transport : String → Except String Unit) (b : Batch) :
    Except String Unit × Batch :=
  if b.pending.isEmpty then (.ok (), b)
  else
    match transport (bulkEncode b.Index b.DocType b.pending) with
    | .ok _ => (.ok (), { b with pending := [] })
    | .error e => (.error e, b)

/-- The alias catalog of the `aliases` package tests: one non-time-series
index, two `logs` days and nine `checks` days. -/
def testIndexes : Indexes :=
  [ (".kibana-4", ⟨[]⟩),
    ("logs-16-04-01", ⟨["logs"]⟩),
    ("logs-16-04-02", ⟨["logs"]⟩),
    ("checks-16-04-01", ⟨["checks"]⟩),
    ("checks-16-04-02", ⟨["checks"]⟩),
    ("checks-16-04-03", ⟨["checks"]⟩),
    ("checks-16-04-04", ⟨["checks"]⟩),
    ("checks-16-04-05", ⟨["checks"]⟩),
    ("checks-16-04-06", ⟨["checks"]⟩),
    ("checks-16-04-07", ⟨["checks"]⟩),
    ("checks-16-04-08", ⟨["checks"]⟩),
    ("checks-16-04-09", ⟨["checks"]⟩) ]

/-- Two-stage formulation of the age filter, following the specification's
words: first `Matching`, then the strict cutoff comparison. -/
def Indexes.MatchingOlderThanStaged (i : Indexes) (layout : String) (n : Int)
    (now : GoTime) : Indexes :=
  (Indexes.Matching i layout).filter fun kv =>
    match goTimeParse layout kv.1 with
    | some t => decide (t < GoTime.addDate00 now (-n))
    | none => false

/-- C1: `MatchingOlderThan` keeps exactly the catalog entries whose name
parses under the layout to an instant strictly before `now` minus `n` days;
an entry whose parsed instant equals the cutoff exactly is retained. -/
theorem matchingOlderThan_mem_iff (i : Indexes) (layout : String) (n : Int)
    (now : GoTime) (e : String × Index) :
    (e ∈ Indexes.MatchingOlderThan i layout n now ↔
      e ∈ i ∧ ∃ t, goTimeParse layout e.1 = some t ∧ t < GoTime.addDate00 now (-n)) ∧
    (goTimeParse layout e.1 = some (GoTime.addDate00 now (-n)) →
      e ∉ Indexes.MatchingOlderThan i layout n now) := by
  have main : e ∈ Indexes.MatchingOlderThan i layout n now ↔
      e ∈ i ∧ ∃ t, goTimeParse layout e.1 = some t ∧ t < GoTime.addDate00 now (-n) := by
    simp only [Indexes.MatchingOlderThan, List.mem_filter]
    cases h : goTimeParse layout e.1 with
    | none => simp [h]
    | some t => simp [h]
  refine ⟨main, fun hb hm => ?_⟩
  obtain ⟨-, t, ht, hlt⟩ := main.mp hm
  rw [hb] at ht
  exact absurd hlt (by simp [Option.some_inj.mp ht])

/-- Witness for C1: the index dated exactly seven days before the reference
time is retained by `MatchingOlderThan` with a seven-day retention. -/
theorem matchingOlderThan_mem_iff_witness :
    ("checks-16-04-09", (⟨["checks"]⟩ : Index)) ∉
      Indexes.MatchingOlderThan testIndexes "checks-06-01-02" 7 (mkTime 2016 4 16 0 0 0) :=
  (matchingOlderThan_mem_iff testIndexes "checks-06-01-02" 7 (mkTime 2016 4 16 0 0 0)
    ("checks-16-04-09", ⟨["checks"]⟩)).2 (by decide)

/-- C2: on the test catalog, layout `checks-06-01-02`, retention 7 and
reference time 2016-04-09 00:00 UTC plus one hour, `MatchingOlderThan`
returns exactly the entries `checks-16-04-01` and `checks-16-04-02`. -/
theorem matchingOlderThan_testCatalog :
    Indexes.MatchingOlderThan testIndexes "checks-06-01-02" 7 (mkTime 2016 4 9 0 0 0 + 3600) =
      [("checks-16-04-01", ⟨["checks"]⟩), ("checks-16-04-02", ⟨["checks"]⟩)] := by
  decide

/-- C3: when the age filter selects no index, `RemoveOlderThan` returns the
absent (`nil`) plan rather than a serialized empty-actions document, and
`RemoveOldAliases` succeeds without issuing the alias-mutation POST. -/
theorem removeOlderThan_empty_plan (i : Indexes) (layout aliasName : String)
    (n : Int) (now : GoTime)
    (h : Indexes.MatchingOlderThan i layout n now = []) :
    Indexes.RemoveOlderThan i layout aliasName n now = none ∧
    Client.RemoveOldAliases (.ok i) layout aliasName n now = .ok none := by
  have h1 : Indexes.RemoveOlderThan i layout aliasName n now = none := by
    simp [Indexes.RemoveOlderThan, h]
  exact ⟨h1, by simp [Client.RemoveOldAliases, h1]⟩

/-- Witness for C3: no index of the test catalog matches the layout
`something`, so the plan is absent and no POST is recorded. -/
theorem removeOlderThan_empty_plan_witness :
    Indexes.RemoveOlderThan testIndexes "something" "checks" 7 (mkTime 2016 4 9 0 0 0) = none ∧
    Client.RemoveOldAliases (.ok testIndexes) "something" "checks" 7
      (mkTime 2016 4 9 0 0 0) = .ok none :=
  removeOlderThan_empty_plan testIndexes "something" "checks" 7 (mkTime 2016 4 9 0 0 0)
    (by decide)

/-- C4: when the age filter selects at least one index, `RemoveOlderThan`
returns the serialized `actions` document built from exactly one remove
action per selected index, each carrying that index's name and the given
alias name, and nothing else. -/
theorem removeOlderThan_actions (i : Indexes) (layout aliasName : String)
    (n : Int) (now : GoTime)
    (h : Indexes.MatchingOlderThan i layout n now ≠ []) :
    ∃ acts : List Action,
      Indexes.RemoveOlderThan i layout aliasName n now = some (marshalActions acts) ∧
      acts.map Action.Index = Indexes.Names (Indexes.MatchingOlderThan i layout n now) ∧
      ∀ a ∈ acts, a.Alias = aliasName := by
  refine ⟨(Indexes.MatchingOlderThan i layout n now).map fun kv => Action.mk kv.1 aliasName,
    ?_, ?_, ?_⟩
  · simp only [Indexes.RemoveOlderThan]
    rw [if_neg]
    simp [h]
  · simp [Indexes.Names, List.map_map]
  · intro a ha
    simp only [List.mem_map] at ha
    obtain ⟨kv, -, rfl⟩ := ha
    rfl

/-- Witness for C4: the plan for the test catalog under layout
`checks-06-01-02`, alias `checks`, retention 7 and reference time
2016-04-09 00:01 UTC. -/
theorem removeOlderThan_actions_witness :
    ∃ acts : List Action,
      Indexes.RemoveOlderThan testIndexes "checks-06-01-02" "checks" 7
        (mkTime 2016 4 9 0 1 0) = some (marshalActions acts) ∧
      acts.map Action.Index =
        Indexes.Names (Indexes.MatchingOlderThan testIndexes "checks-06-01-02" 7
          (mkTime 2016 4 9 0 1 0)) ∧
      ∀ a ∈ acts, a.Alias = "checks" :=
  removeOlderThan_actions testIndexes "checks-06-01-02" "checks" 7
    (mkTime 2016 4 9 0 1 0) (by decide)

/-- C5 counterexample: under the layout `.kibana-4` itself — whose final
character Go's layout scanner reads as a minute chunk — the name
`.kibana-4` parses, so the `.kibana-4` entry does appear in a `Matching`
result; "never appears regardless of layout" fails. -/
theorem matching_kibana_counterexample :
    (".kibana-4", (⟨[]⟩ : Index)) ∈ Indexes.Matching testIndexes ".kibana-4" := by
  decide

/-- C5 (amended): `Matching` returns exactly the entries whose name parses
under the layout, and an entry whose name does not parse under the layout —
as `.kibana-4` does not under any of this library's date layouts — appears
in no `Matching` or `MatchingOlderThan` result for that layout. -/
theorem matching_mem_iff (i : Indexes) (layout : String) (e : String × Index) :
    (e ∈ Indexes.Matching i layout ↔ e ∈ i ∧ (goTimeParse layout e.1).isSome) ∧
    (goTimeParse layout e.1 = none →
      e ∉ Indexes.Matching i layout ∧
      ∀ (n : Int) (now : GoTime), e ∉ Indexes.MatchingOlderThan i layout n now) := by
  have main : e ∈ Indexes.Matching i layout ↔
      e ∈ i ∧ (goTimeParse layout e.1).isSome := by
    simp [Indexes.Matching, List.mem_filter]
  refine ⟨main, fun hn => ⟨fun hm => ?_, fun n now hm => ?_⟩⟩
  · have := (main.mp hm).2
    rw [hn] at this
    exact absurd this (by simp)
  · obtain ⟨-, t, ht, -⟩ :=
      ((matchingOlderThan_mem_iff i layout n now e).1.mp hm)
    rw [hn] at ht
    exact Option.noConfusion ht

/-- Witness for C5 (amended): `.kibana-4` does not parse under the layout
`checks-06-01-02`, so it is absent from that age-filter result. -/
theorem matching_mem_iff_witness :
    (".kibana-4", (⟨[]⟩ : Index)) ∉
      Indexes.MatchingOlderThan testIndexes "checks-06-01-02" 7 (mkTime 2016 4 9 1 0 0) :=
  ((matching_mem_iff testIndexes "checks-06-01-02" (".kibana-4", ⟨[]⟩)).2
    (by decide)).2 7 (mkTime 2016 4 9 1 0 0)

/-- C6: the one-pass `MatchingOlderThan` agrees with the two-stage
composition that first applies `Matching` and then the strict age cutoff. -/
theorem matchingOlderThan_eq_staged (i : Indexes) (layout : String) (n : Int)
    (now : GoTime) :
    Indexes.MatchingOlderThan i layout n now =
      Indexes.MatchingOlderThanStaged i layout n now := by
  simp only [Indexes.MatchingOlderThan, Indexes.MatchingOlderThanStaged,
    Indexes.Matching, List.filter_filter]
  congr 1
  funext kv
  cases h : goTimeParse layout kv.1 <;> simp [h]

/-- C7: `RemoveOldIndexes` issues no DELETE and succeeds when the fetched
listing is empty or when no index passes the age filter; otherwise it issues
exactly one DELETE whose path is the comma-joined selected index names. -/
theorem removeOldIndexes_plan (i : Indexes) (layout : String) (n : Int)
    (now : GoTime) :
    (Client.RemoveOldIndexes (.ok []) layout n now = .ok none) ∧
    (Indexes.Names (Indexes.MatchingOlderThan i layout n now) = [] →
      Client.RemoveOldIndexes (.ok i) layout n now = .ok none) ∧
    (Indexes.Names (Indexes.MatchingOlderThan i layout n now) ≠ [] →
      Client.RemoveOldIndexes (.ok i) layout n now =
        .ok (some ⟨"DELETE",
          "/" ++ String.intercalate ","
            (Indexes.Names (Indexes.MatchingOlderThan i layout n now)), none⟩)) := by
  refine ⟨rfl, fun h => ?_, fun h => ?_⟩
  · cases hi : i.isEmpty with
    | true => simp [Client.RemoveOldIndexes, hi]
    | false => simp [Client.RemoveOldIndexes, hi, h]
  · have hi : i.isEmpty = false := by
      cases hi : i.isEmpty with
      | false => rfl
      | true =>
        rw [List.isEmpty_iff] at hi
        subst hi
        exact absurd rfl h
    simp [Client.RemoveOldIndexes, hi, h]

/-- Witness for C7: the DELETE recorded for the test catalog under layout
`checks-06-01-02`, retention 7 and reference time 2016-04-09 01:00 UTC. -/
theorem removeOldIndexes_plan_witness :
    Client.RemoveOldIndexes (.ok testIndexes) "checks-06-01-02" 7
      (mkTime 2016 4 9 1 0 0) =
      .ok (some ⟨"DELETE",
        "/" ++ String.intercalate ","
          (Indexes.Names (Indexes.MatchingOlderThan testIndexes "checks-06-01-02" 7
            (mkTime 2016 4 9 1 0 0))), none⟩) :=
  (removeOldIndexes_plan testIndexes "checks-06-01-02" 7 (mkTime 2016 4 9 1 0 0)).2.2
    (by decide)

/-- C8: a response with status code at least 300 makes `Request` fail with
the status line and raw body; a status below 300 with no decode target
yields success. -/
theorem handleResponse_spec (statusCode : Nat) (status body : String)
    (hasTarget : Bool) :
    (300 ≤ statusCode →
      Client.handleResponse statusCode status body hasTarget =
        .failure (status ++ ": " ++ body)) ∧
    (statusCode < 300 →
      Client.handleResponse statusCode status body false = .success) := by
  constructor
  · intro h
    simp [Client.handleResponse, h]
  · intro h
    simp [Client.handleResponse, Nat.not_le.mpr h]

/-- Witness for C8: a `400 Bad Request` response fails with the status line
and body, and a bare `200 OK` response succeeds. -/
theorem handleResponse_spec_witness :
    Client.handleResponse 400 "400 Bad Request" "oops" false =
      .failure ("400 Bad Request" ++ ": " ++ "oops") ∧
    Client.handleResponse 200 "200 OK" "" false = .success :=
  ⟨(handleResponse_spec 400 "400 Bad Request" "oops" false).1 (by decide),
   (handleResponse_spec 200 "200 OK" "" false).2 (by decide)⟩

/-- C9: when the transport call inside `Flush` fails, the pending batch is
left entirely unchanged, so `Size` after the call equals `Size` before. -/
theorem batch_flush_failure (b : Batch) (transport : String → Except String Unit)
    (e : String)
    (h : transport (bulkEncode b.Index b.DocType b.pending) = .error e) :
    Batch.Size (Batch.Flush transport b).2 = Batch.Size b ∧
    (Batch.Flush transport b).2 = b := by
  unfold Batch.Flush
  cases hp : b.pending.isEmpty with
  | true => simp [hp]
  | false => simp [hp, h]

/-- Witness for C9: a one-record batch whose transport always fails keeps
its record. -/
theorem batch_flush_failure_witness :
    Batch.Size (Batch.Flush (fun _ => .error "boom") ⟨"pets", "pet", ["r"]⟩).2 =
      Batch.Size ⟨"pets", "pet", ["r"]⟩ ∧
    (Batch.Flush (fun _ => .error "boom") (⟨"pets", "pet", ["r"]⟩ : Batch)).2 =
      ⟨"pets", "pet", ["r"]⟩ :=
  batch_flush_failure ⟨"pets", "pet", ["r"]⟩ (fun _ => .error "boom") "boom" rfl

/-- Preservation of the credential exclusivity invariant by any sequence of
setter calls. -/
theorem applyCredOps_invariant (ops : List CredOp) (c : Client)
    (h : c.awsCredentials = none ∨ c.authCredentials = none) :
    (applyCredOps c ops).awsCredentials = none ∨
      (applyCredOps c ops).authCredentials = none := by
  induction ops generalizing c with
  | nil => exact h
  | cons op rest ih =>
    cases op with
    | setAWS cr =>
      exact ih (Client.SetAWSCredentials c cr) (Or.inr rfl)
    | setAuth u p =>
      exact ih (Client.SetAuthCredentials c u p) (Or.inl rfl)

/-- C10: after any sequence of credential-setter calls on a fresh client, at
most one credential field is set, and the request dispatch applies exactly
one scheme: basic auth when auth credentials are set, AWS signing when AWS
credentials are set, none otherwise. -/
theorem credentials_exclusive (url : String) (ops : List CredOp) :
    ((applyCredOps (Client.New url) ops).awsCredentials = none ∨
      (applyCredOps (Client.New url) ops).authCredentials = none) ∧
    (∀ a, (applyCredOps (Client.New url) ops).authCredentials = some a →
      Client.authScheme (applyCredOps (Client.New url) ops) =
        .basic a.username a.password) ∧
    (∀ cr, (applyCredOps (Client.New url) ops).awsCredentials = some cr →
      Client.authScheme (applyCredOps (Client.New url) ops) = .awsSigned) ∧
    ((applyCredOps (Client.New url) ops).awsCredentials = none →
      (applyCredOps (Client.New url) ops).authCredentials = none →
      Client.authScheme (applyCredOps (Client.New url) ops) = .noAuth) := by
  have hinv := applyCredOps_invariant ops (Client.New url) (Or.inl rfl)
  set c := applyCredOps (Client.New url) ops with hc
  refine ⟨hinv, fun a ha => ?_, fun cr hcr => ?_, fun h1 h2 => ?_⟩
  · simp [Client.authScheme, ha]
  · have hauth : c.authCredentials = none := by
      cases hinv with
      | inl h => rw [h] at hcr; exact Option.noConfusion hcr
      | inr h => exact h
    simp [Client.authScheme, hauth, hcr]
  · simp [Client.authScheme, h1, h2]

/-- Witness for C10: setting basic-auth credentials and then AWS credentials
leaves only the AWS credentials set, and the dispatch signs with AWS. -/
theorem credentials_exclusive_witness :
    Client.authScheme
      (applyCredOps (Client.New "http://es") [.setAuth "u" "p", .setAWS ⟨"k", "s"⟩]) =
      .awsSigned :=
  (credentials_exclusive "http://es" [.setAuth "u" "p", .setAWS ⟨"k", "s"⟩]).2.2.1
    ⟨"k", "s"⟩ rfl

end Elastic
